import Mathlib

/-!
Fruit cutting session coordinator (`main.go`).

A shallow embedding of the shared state of `main.go` and of the functions that
mutate it: `addUser`, `userLeaves`, `dropFruits`, `RemoveExpiredFruits`,
`cutFruit` and the reactions of the coordinator loop in `main`.

Modelling conventions.

* Go `int` values are `Int`; `time.Time` is an `Int` count of nanoseconds and
  `time.Duration` an `Int` count of nanoseconds (saturating as in `Time.Sub`).
* The package-level variables are the fields of `State`.  Every function is
  modelled at the granularity of its critical section: the body runs start to
  end under the locks it takes.
* `map[string]Player` is an association list with at most one pair per key.
  The order of the pairs carries no meaning; the order in which a `range`
  statement visits the map is a separate argument of the reactions that
  iterate over it.
* A buffered channel is the FIFO list of the values sent and not yet
  received, of capacity `chanCap`.  A send appends at the back, a receive
  takes the front.  The only receiver of `removeUnCutFruitsChannel` is the
  coordinator loop, and the coordinator loop is also the caller of
  `RemoveExpiredFruits`: a send of the sweep that finds the buffer full has
  nobody to make room for it and waits forever, with `queueLock` held.  The
  sweep therefore ends in an `Outcome`, returned or blocked.  The sends of
  `addUser` and `userLeaves` are modelled for a buffer with room, the only
  case in which they are used here.
* The text written by `log.Printf` is not part of the model.
* `math/rand` and `time.Now` are a `World`: a sequence of raw random draws and
  a sequence of clock readings, consumed left to right through two cursors
  kept in `State`.
* An operation that can panic returns `Option`; `none` is the panic.
-/

set_option linter.dupNamespace false

namespace FruitsCutting

/-! ## Data model -/

/-- Go `type Player struct`. -/
structure Player where
  Name : String
  TotalCount : Int
  CuttedFruits : List String
  deriving DecidableEq

/-- Go `type Fruit struct`; `StartTime` in nanoseconds. -/
structure Fruit where
  Fruit : String
  StartTime : Int
  ID : Int
  deriving DecidableEq

/-- Go `type FruitAction struct`. -/
structure FruitAction where
  Fruit : Fruit
  PlayerId : String
  deriving DecidableEq

/-- Go `type FruitActionWithIndex struct`. -/
structure FruitActionWithIndex where
  Fruit : String
  index : Int
  deriving DecidableEq

/-- The zero value of `Player`, what indexing a map with an absent key yields. -/
def Player.zero : Player := { Name := "", TotalCount := 0, CuttedFruits := [] }

/-- Go `var maxAllowedUser = 20`. -/
def maxAllowedUser : Int := 20

/-- Go `maxFruitsOnTheScreen = 5`. -/
def maxFruitsOnTheScreen : Int := 5

/-- Go `var planets`. -/
def planets : List String :=
  ["Mercury", "Venus", "Earth", "Mars", "Jupiter", "Saturn", "Uranus", "Neptune"]

/-- Go `var fruits`. -/
def fruits : List String :=
  ["🍎", "🍊", "🍌", "🍇", "🍈", "🍉", "🥑", "🍓", "🍒", "🍍", "🥧"]

/-! ## Maps -/

/-- The type of `users`. -/
abbrev Users := List (String × Player)

/-- Comma-ok lookup `v, exists := m[key]`. -/
def mapLookup : Users → String → Option Player
  | [], _ => none
  | (k, v) :: rest, key => if k = key then some v else mapLookup rest key

/-- Plain indexing `m[key]`: the zero value when the key is absent. -/
def mapIndex (m : Users) (key : String) : Player :=
  match mapLookup m key with
  | some v => v
  | none => Player.zero

/-- Assignment `m[key] = v`: replaces the pair of `key`, or adds one. -/
def mapAssign : Users → String → Player → Users
  | [], key, v => [(key, v)]
  | (k, old) :: rest, key, v =>
    if k = key then (k, v) :: rest else (k, old) :: mapAssign rest key v

/-- Go `delete(m, key)`. -/
def mapDelete : Users → String → Users
  | [], _ => []
  | (k, v) :: rest, key => if k = key then rest else (k, v) :: mapDelete rest key

/-! ## State and world -/

/-- The package-level variables, with the cursors into the `World`. -/
structure State where
  users : Users
  queue : List Fruit
  userJoinedChannel : List Player
  userExitedChannel : List Player
  cuttingAction : List FruitAction
  removeUnCutFruitsChannel : List FruitActionWithIndex
  randPos : Nat
  clockPos : Nat
  deriving DecidableEq

/-- The state at program start: empty map, nil queue, empty channels. -/
def State.init : State :=
  { users := [], queue := [], userJoinedChannel := [], userExitedChannel := [],
    cuttingAction := [], removeUnCutFruitsChannel := [], randPos := 0, clockPos := 0 }

/-- The sources of nondeterminism: raw random draws and clock readings. -/
structure World where
  rand : Nat → Nat
  clock : Nat → Int

/-- Go `rand.Intn(n)` for `n > 0`, at cursor position `pos`: a value of `[0, n)`. -/
def Intn (w : World) (pos : Nat) (n : Nat) : Nat := w.rand pos % n

/-! ## `dropFruits` -/

/-- The loop `for i := 0; i < difference; i++` of `dropFruits`, with the
number of iterations still to run. Each iteration draws the label index and
the identifier, reads the clock once for the log line and once for
`StartTime`, and appends the new fruit. -/
def dropLoop (w : World) : Nat → State → State
  | 0, s => s
  | n + 1, s =>
    let randomNumber := Intn w s.randPos fruits.length
    let uniqueId := Intn w (s.randPos + 1) 1000
    let fruit : Fruit :=
      { Fruit := fruits.getD randomNumber "", StartTime := w.clock (s.clockPos + 1),
        ID := uniqueId }
    dropLoop w n
      { s with queue := s.queue ++ [fruit], randPos := s.randPos + 2,
               clockPos := s.clockPos + 2 }

/-- Go `func dropFruits()`. -/
def dropFruits (w : World) (s : State) : State :=
  let difference : Int := maxFruitsOnTheScreen - s.queue.length
  if difference = 0 then s else dropLoop w difference.toNat s

/-! ## `cutFruit` -/

/-- The index expression `queue[i]`; `none` is the out-of-range panic. -/
def indexQueue (queue : List Fruit) (i : Int) : Option Fruit :=
  if 0 ≤ i ∧ i < queue.length then queue.get? i.toNat else none

/-- The loop `for index, fruit := range queue` of `cutFruit`, on the fruits
still to visit, with the index of the first of them, `newQueue` and `users`. -/
def cutLoop (queue : List Fruit) (user : Player) (selectedFruit : Int) :
    List Fruit → Nat → List Fruit → Users → Option (List Fruit × Users)
  | [], _, newQueue, users => some (newQueue, users)
  | fruit :: rest, index, newQueue, users =>
    if (index : Int) = selectedFruit then
      match indexQueue queue selectedFruit with
      | none => none
      | some _ =>
        let playerStatus := mapIndex users user.Name
        let playerStatus :=
          { playerStatus with CuttedFruits := playerStatus.CuttedFruits ++ [fruit.Fruit] }
        cutLoop queue user selectedFruit rest (index + 1) newQueue
          (mapAssign users user.Name playerStatus)
    else
      cutLoop queue user selectedFruit rest (index + 1) (newQueue ++ [fruit]) users

/-- Go `func cutFruit(user Player, selectedFruit int)`. -/
def cutFruit (s : State) (user : Player) (selectedFruit : Int) : Option State :=
  match cutLoop s.queue user selectedFruit s.queue 0 [] s.users with
  | none => none
  | some (newQueue, users) => some { s with queue := newQueue, users := users }

/-! ## `RemoveExpiredFruits` -/

/-- Go `time.Second`, in nanoseconds. -/
def Second : Int := 1000000000

/-- The largest `time.Duration`. -/
def maxDuration : Int := 2 ^ 63 - 1

/-- The smallest `time.Duration`. -/
def minDuration : Int := -(2 ^ 63)

/-- Go `t.Sub(u)`: the difference in nanoseconds, saturated to the range of
`time.Duration`. -/
def Sub (t u : Int) : Int :=
  if t - u > maxDuration then maxDuration
  else if t - u < minDuration then minDuration
  else t - u

/-- Go `d.Seconds()`: whole seconds plus the remaining nanoseconds over `1e9`,
with the truncating `/` and `%` of Go. The value is kept as an exact rational.
`RemoveExpiredFruits` only compares it with `float64(maxFruitsOnTheScreen)`,
that is with 5, and there the rounding of `float64` does not change the
outcome: both summands are exact up to one rounding of the fraction, and a
duration of five seconds and one nanosecond still converts to a number above
5, one of at most five seconds to a number of at most 5. -/
def Seconds (d : Int) : ℚ :=
  ((d.tdiv Second : Int) : ℚ) + ((d.tmod Second : Int) : ℚ) / 1000000000

/-- The test `difference.Seconds() > float64(maxFruitsOnTheScreen)` of
`RemoveExpiredFruits` on one fruit. -/
def isExpired (now : Int) (fruit : Fruit) : Bool :=
  decide (Seconds (Sub now fruit.StartTime) > ((maxFruitsOnTheScreen : Int) : ℚ))

/-- The capacity of each channel, `make(chan ..., 10)`. -/
def chanCap : Nat := 10

/-- What a call that sends on a channel comes to: it returns and leaves a
state, or it waits forever in a send on a full channel, in the state it had
reached, with its locks held. -/
inductive Outcome where
  | returned (s : State)
  | blocked (s : State)
  deriving DecidableEq

/-- The state an outcome leaves. -/
def Outcome.state : Outcome → State
  | .returned s => s
  | .blocked s => s

/-- The loop `for index, fruit := range queue` of `RemoveExpiredFruits`, on the
fruits still to visit, with the index of the first of them, `newQueue` and the
buffer of `removeUnCutFruitsChannel`. The result is the buffer, and `newQueue`
if the loop ran to its end; it is `none` if a send found `chanCap` values in
the buffer. -/
def sweepLoop (now : Int) :
    List Fruit → Nat → List Fruit → List FruitActionWithIndex →
      Option (List Fruit) × List FruitActionWithIndex
  | [], _, newQueue, ch => (some newQueue, ch)
  | fruit :: rest, index, newQueue, ch =>
    if isExpired now fruit then
      if ch.length < chanCap then
        sweepLoop now rest (index + 1) newQueue
          (ch ++ [{ index := (index : Int), Fruit := fruit.Fruit }])
      else (none, ch)
    else
      sweepLoop now rest (index + 1) (newQueue ++ [fruit]) ch

/-- Go `func RemoveExpiredFruits()`. The assignment `queue = newQueue` runs only
when the loop has run to its end. -/
def RemoveExpiredFruits (w : World) (s : State) : Outcome :=
  let now := w.clock s.clockPos
  match sweepLoop now s.queue 0 [] s.removeUnCutFruitsChannel with
  | (some newQueue, ch) =>
    .returned
      { s with queue := newQueue, removeUnCutFruitsChannel := ch, clockPos := s.clockPos + 1 }
  | (none, ch) =>
    .blocked { s with removeUnCutFruitsChannel := ch, clockPos := s.clockPos + 1 }

/-! ## `addUser`, `userLeaves` and the coordinator -/

/-- The identity `fmt.Sprintf("%s_%d", planets[playerPrefix], id)`. -/
def playerIDOf (playerPrefix id : Nat) : String :=
  planets.getD playerPrefix "" ++ "_" ++ toString id

/-- Go `func addUser()`: sends a fresh `Player` on `userJoinedChannel` when the
drawn identity is not a key of `users`; it does not write to `users`. The send
is that on a buffer with room. -/
def addUser (w : World) (s : State) : State :=
  let id := Intn w s.randPos maxAllowedUser.toNat
  let playerPrefix := Intn w (s.randPos + 1) planets.length
  let playerID := playerIDOf playerPrefix id
  let s := { s with randPos := s.randPos + 2 }
  match mapLookup s.users playerID with
  | none =>
    let player : Player := { Player.zero with Name := playerID }
    { s with userJoinedChannel := s.userJoinedChannel ++ [player] }
  | some _ => s

/-- Go `func userLeaves(playerID string)`. The send is that on a buffer with
room. -/
def userLeaves (s : State) (playerID : String) : State :=
  match mapLookup s.users playerID with
  | some player =>
    { s with users := mapDelete s.users playerID,
             userExitedChannel := s.userExitedChannel ++ [player] }
  | none => s

/-- The reaction `case data := <-userJoinedChannel` of the coordinator loop:
receives the oldest pending value and stores it under its name. With an empty
buffer the case is not ready and nothing happens. -/
def onUserJoined (s : State) : State :=
  match s.userJoinedChannel with
  | [] => s
  | data :: pending =>
    { s with userJoinedChannel := pending, users := mapAssign s.users data.Name data }

/-- The loop `for _, v := range users` of the cutting reaction, over the pairs
in the order the iteration visits them, with the current `playerId` and
`user`. -/
def pickLoop : List (String × Player) → Int → Player → Player
  | [], _, user => user
  | (_, v) :: rest, playerId, user =>
    if playerId = 0 then v else pickLoop rest (playerId - 1) user

/-- The reaction `case <-tickerForCutting.C` of the coordinator loop: the state
after it, and the arguments of the `cutFruit` task it starts, if it starts
one. `order` is the order in which the iteration visits the map. -/
def onCuttingTick (w : World) (s : State) (order : List (String × Player)) :
    State × Option (Player × Int) :=
  if s.users.length > 0 then
    let playerId : Int := 1
    let drawn : Int × State :=
      if s.users.length > 1 then
        ((Intn w s.randPos s.users.length : Int), { s with randPos := s.randPos + 1 })
      else (playerId, s)
    let user := pickLoop order drawn.1 Player.zero
    let s1 := drawn.2
    if s1.queue.length > 0 then
      ({ s1 with randPos := s1.randPos + 1 },
        some (user, (Intn w s1.randPos s1.queue.length : Int)))
    else (s1, none)
  else (s, none)

/-- The reaction `case data := <-removeUnCutFruitsChannel` of the coordinator
loop: takes the oldest pending value. With an empty buffer the case is not
ready and nothing happens. -/
def onRemoveUnCut (s : State) : State :=
  match s.removeUnCutFruitsChannel with
  | [] => s
  | _ :: pending => { s with removeUnCutFruitsChannel := pending }

/-! ## Sequences of operations -/

/-- The operations on the queue: spawn, consume, expiry sweep, and the
coordinator taking one value from `removeUnCutFruitsChannel`. -/
inductive QueueOp where
  | drop
  | cut (user : Player) (selectedFruit : Int)
  | sweep
  | receive

/-- One queue operation; `none` is a panic. -/
def stepQueue (w : World) (s : State) : QueueOp → Option Outcome
  | .drop => some (.returned (dropFruits w s))
  | .cut user selectedFruit =>
    match cutFruit s user selectedFruit with
    | none => none
    | some s1 => some (.returned s1)
  | .sweep => some (RemoveExpiredFruits w s)
  | .receive => some (.returned (onRemoveUnCut s))

/-- A sequence of queue operations, left to right, and the state it ends in;
`none` if an operation panics. A blocked sweep keeps `queueLock` and stalls the
coordinator, so the operations behind it do not run and the state stays the
one in which the sweep waits. -/
def runQueue (w : World) : State → List QueueOp → Option State
  | s, [] => some s
  | s, op :: ops =>
    match stepQueue w s op with
    | none => none
    | some (.returned s1) => runQueue w s1 ops
    | some (.blocked s1) => some s1

/-- The steps of the join protocol: one run of `addUser`, or the coordinator
taking one value from `userJoinedChannel`. -/
inductive JoinOp where
  | add
  | receive
  deriving DecidableEq

/-- One step of the join protocol. -/
def stepJoin (w : World) (s : State) : JoinOp → State
  | .add => addUser w s
  | .receive => onUserJoined s

/-- A sequence of steps of the join protocol, left to right. -/
def runJoin (w : World) (s : State) (ops : List JoinOp) : State :=
  ops.foldl (stepJoin w) s

/-! ## Example inputs -/

/-- A world whose random draws are all `3` and whose clock advances by one
second per reading. -/
def exWorld : World := { rand := fun _ => 3, clock := fun n => 1000000000 * (n : Int) }

/-- The record `addUser` sends for the identity `Mars_3`. -/
def marsPlayer : Player := { Name := "Mars_3", TotalCount := 0, CuttedFruits := [] }

/-- A second player. -/
def earthPlayer : Player := { Name := "Earth_1", TotalCount := 0, CuttedFruits := ["🍌"] }

/-- Three fruits spawned at 0 s, 1 s and 2 s. -/
def exQueue : List Fruit :=
  [{ Fruit := "🍎", StartTime := 0, ID := 7 },
   { Fruit := "🍊", StartTime := 1000000000, ID := 8 },
   { Fruit := "🍌", StartTime := 2000000000, ID := 9 }]

/-- One registered player and three fruits on the screen. -/
def soloState : State := { State.init with users := [("Mars_3", marsPlayer)], queue := exQueue }

/-- The state `soloState` when the clock cursor stands at the reading of 6 s:
the first fruit is older than five seconds, the second exactly five seconds
old. -/
def sweepState : State := { soloState with clockPos := 6 }

/-- The state `sweepState` with ten values pending in
`removeUnCutFruitsChannel`. -/
def fullState : State :=
  { sweepState with
    removeUnCutFruitsChannel := List.replicate 10 { Fruit := "🍇", index := 0 } }

/-- Two registered players and three fruits on the screen. -/
def duoState : State :=
  { State.init with
    users := [("Mars_3", marsPlayer), ("Earth_1", earthPlayer)], queue := exQueue }

/-! ## Lemmas on maps -/

theorem mapLookup_mapAssign_self (m : Users) (key : String) (v : Player) :
    mapLookup (mapAssign m key v) key = some v := by
  induction m with
  | nil => simp [mapAssign, mapLookup]
  | cons p rest ih =>
    obtain ⟨k, old⟩ := p
    by_cases h : k = key
    · simp [mapAssign, mapLookup, h]
    · simp [mapAssign, mapLookup, h, ih]

theorem mapLookup_mapAssign_other (m : Users) (key other : String) (v : Player)
    (h : other ≠ key) : mapLookup (mapAssign m key v) other = mapLookup m other := by
  induction m with
  | nil =>
    have h1 : ¬ key = other := fun e => h e.symm
    simp [mapAssign, mapLookup, h1]
  | cons p rest ih =>
    obtain ⟨k, old⟩ := p
    by_cases hk : k = key
    · subst hk
      have h1 : ¬ k = other := fun e => h e.symm
      simp [mapAssign, mapLookup, h1]
    · by_cases ho : k = other
      · subst ho
        simp [mapAssign, mapLookup, hk]
      · simp [mapAssign, mapLookup, hk, ho, ih]

/-! ## Lemmas on `cutFruit` -/

/-- When no index still to visit equals `selectedFruit`, the loop of `cutFruit`
copies the remaining fruits and leaves `users` alone. -/
theorem cutLoop_no_match (queue : List Fruit) (user : Player) (selectedFruit : Int)
    (rest : List Fruit) :
    ∀ (index : Nat) (newQueue : List Fruit) (users : Users),
      (∀ k : Nat, k < rest.length → ((index + k : Nat) : Int) ≠ selectedFruit) →
      cutLoop queue user selectedFruit rest index newQueue users
        = some (newQueue ++ rest, users) := by
  induction rest with
  | nil => intro index newQueue users _; simp [cutLoop]
  | cons fruit rest ih =>
    intro index newQueue users h
    have h0 : ((index : Nat) : Int) ≠ selectedFruit := by
      have := h 0 (by simp)
      simpa using this
    have hr : ∀ k : Nat, k < rest.length → ((index + 1 + k : Nat) : Int) ≠ selectedFruit := by
      intro k hk
      have := h (k + 1) (by simp; omega)
      intro e
      apply this
      rw [← e]
      push_cast
      ring
    rw [cutLoop, if_neg h0, ih (index + 1) (newQueue ++ [fruit]) users hr]
    simp

/-- When the fruit `j` places ahead sits at index `selectedFruit`, the loop of
`cutFruit` copies all remaining fruits but that one and records its label for
`user.Name`. -/
theorem cutLoop_match (queue : List Fruit) (user : Player) (selectedFruit : Int)
    (hq : 0 ≤ selectedFruit ∧ selectedFruit < queue.length) (rest : List Fruit) :
    ∀ (index j : Nat) (newQueue : List Fruit) (users : Users) (fruit : Fruit),
      rest[j]? = some fruit → ((index + j : Nat) : Int) = selectedFruit →
      cutLoop queue user selectedFruit rest index newQueue users
        = some (newQueue ++ rest.eraseIdx j,
            mapAssign users user.Name
              { mapIndex users user.Name with
                CuttedFruits := (mapIndex users user.Name).CuttedFruits ++ [fruit.Fruit] }) := by
  induction rest with
  | nil => intro index j newQueue users fruit h; simp at h
  | cons head rest ih =>
    intro index j newQueue users fruit hget hidx
    cases j with
    | zero =>
      simp at hget
      subst hget
      have h0 : ((index : Nat) : Int) = selectedFruit := by simpa using hidx
      have hsome : ∃ x, indexQueue queue selectedFruit = some x := by
        unfold indexQueue
        rw [if_pos hq]
        have : selectedFruit.toNat < queue.length := by omega
        exact ⟨queue[selectedFruit.toNat], by simp [List.getElem?_eq_getElem this]⟩
      obtain ⟨x, hx⟩ := hsome
      rw [cutLoop, if_pos h0, hx]
      simp only
      rw [cutLoop_no_match]
      · simp
      · intro k _ e
        rw [← h0] at e
        omega
    | succ j =>
      simp at hget
      have h0 : ((index : Nat) : Int) ≠ selectedFruit := by
        rw [← hidx]; push_cast; omega
      have h1 : ((index + 1 + j : Nat) : Int) = selectedFruit := by
        rw [← hidx]; push_cast; ring
      rw [cutLoop, if_neg h0, ih (index + 1) j (newQueue ++ [head]) users fruit hget h1]
      simp

/-- An index outside the queue makes `cutFruit` return the state it was given. -/
theorem cutFruit_out_of_range (s : State) (user : Player) (selectedFruit : Int)
    (h : selectedFruit < 0 ∨ (s.queue.length : Int) ≤ selectedFruit) :
    cutFruit s user selectedFruit = some s := by
  unfold cutFruit
  rw [cutLoop_no_match]
  · simp
  · intro k hk e
    rw [← e] at h
    push_cast at h
    omega

/-- An index inside the queue makes `cutFruit` erase that position and store the
record of `user.Name`, or the zero record, with the label appended. -/
theorem cutFruit_in_range (s : State) (user : Player) (selectedFruit : Int) (fruit : Fruit)
    (h0 : 0 ≤ selectedFruit) (hget : s.queue[selectedFruit.toNat]? = some fruit) :
    cutFruit s user selectedFruit
      = some { s with
          queue := s.queue.eraseIdx selectedFruit.toNat,
          users := mapAssign s.users user.Name
            { mapIndex s.users user.Name with
              CuttedFruits := (mapIndex s.users user.Name).CuttedFruits ++ [fruit.Fruit] } } := by
  have hlt : selectedFruit.toNat < s.queue.length := by
    by_contra hc
    rw [List.getElem?_eq_none (by omega)] at hget
    cases hget
  unfold cutFruit
  rw [cutLoop_match s.queue user selectedFruit ⟨h0, by omega⟩ s.queue 0 selectedFruit.toNat
    [] s.users fruit hget (by simp; omega)]
  simp

/-! ## Lemmas on `RemoveExpiredFruits` -/

/-- The two summands of `Seconds` add up to the duration over `1e9`. -/
theorem Seconds_eq (d : Int) : Seconds d = (d : ℚ) / 1000000000 := by
  unfold Seconds
  have h := Int.tdiv_add_tmod d Second
  have h2 : (d : ℚ) = ((Second * d.tdiv Second + d.tmod Second : Int) : ℚ) := by rw [h]
  rw [h2]
  push_cast
  simp only [Second]
  push_cast
  ring

theorem Seconds_gt_iff (d : Int) :
    Seconds d > ((maxFruitsOnTheScreen : Int) : ℚ) ↔ d > maxFruitsOnTheScreen * Second := by
  rw [Seconds_eq, gt_iff_lt, lt_div_iff₀ (by norm_num)]
  simp only [maxFruitsOnTheScreen, Second]
  norm_cast

theorem Sub_gt_iff (t u : Int) :
    Sub t u > maxFruitsOnTheScreen * Second ↔ t - u > maxFruitsOnTheScreen * Second := by
  unfold Sub maxDuration minDuration maxFruitsOnTheScreen Second
  norm_num
  split_ifs <;> omega

/-- The expiry test of the code is the exact comparison of the age in
nanoseconds with `maxFruitsOnTheScreen` seconds. -/
theorem isExpired_iff (now : Int) (fruit : Fruit) :
    isExpired now fruit = true ↔ now - fruit.StartTime > maxFruitsOnTheScreen * Second := by
  unfold isExpired
  rw [decide_eq_true_iff, Seconds_gt_iff, Sub_gt_iff]

theorem isExpired_eq (now : Int) (fruit : Fruit) :
    isExpired now fruit = decide (now - fruit.StartTime > maxFruitsOnTheScreen * Second) := by
  rw [Bool.eq_iff_iff, isExpired_iff, decide_eq_true_iff]

/-- With room in the buffer for one value per expired fruit, the loop of
`RemoveExpiredFruits` runs to its end: a filter on the queue and a filtered map
on the indexed queue. -/
theorem sweepLoop_eq (now : Int) (rest : List Fruit) :
    ∀ (index : Nat) (newQueue : List Fruit) (ch : List FruitActionWithIndex),
      ch.length + (rest.filter (fun fruit => isExpired now fruit)).length ≤ chanCap →
      sweepLoop now rest index newQueue ch
        = (some (newQueue ++ rest.filter (fun fruit => !isExpired now fruit)),
           ch ++ ((rest.enumFrom index).filter (fun p => isExpired now p.2)).map
             (fun p => { index := (p.1 : Int), Fruit := p.2.Fruit })) := by
  induction rest with
  | nil => intro index newQueue ch _; simp [sweepLoop]
  | cons fruit rest ih =>
    intro index newQueue ch hroom
    by_cases h : isExpired now fruit = true
    · simp only [List.filter_cons, h, if_true, List.length_cons] at hroom
      have hlt : ch.length < chanCap := by omega
      have hroom1 : (ch ++ [({ index := (index : Int), Fruit := fruit.Fruit } :
          FruitActionWithIndex)]).length
          + (rest.filter (fun fruit => isExpired now fruit)).length ≤ chanCap := by
        simp only [List.length_append, List.length_singleton]
        omega
      rw [sweepLoop, if_pos h, if_pos hlt, ih _ _ _ hroom1]
      simp [List.enumFrom, List.filter, h]
    · have hroom1 : ch.length + (rest.filter (fun fruit => isExpired now fruit)).length
          ≤ chanCap := by
        simpa [List.filter_cons, h] using hroom
      rw [sweepLoop, if_neg h, ih _ _ _ hroom1]
      simp [List.enumFrom, List.filter, h]

/-- Without room in the buffer for one value per expired fruit, the loop of
`RemoveExpiredFruits` stops in a send. -/
theorem sweepLoop_blocked (now : Int) (rest : List Fruit) :
    ∀ (index : Nat) (newQueue : List Fruit) (ch : List FruitActionWithIndex),
      ch.length ≤ chanCap →
      chanCap < ch.length + (rest.filter (fun fruit => isExpired now fruit)).length →
      (sweepLoop now rest index newQueue ch).1 = none := by
  induction rest with
  | nil => intro index newQueue ch hcap hfull; simp at hfull; omega
  | cons fruit rest ih =>
    intro index newQueue ch hcap hfull
    by_cases h : isExpired now fruit = true
    · simp only [List.filter_cons, h, if_true, List.length_cons] at hfull
      by_cases hlt : ch.length < chanCap
      · rw [sweepLoop, if_pos h, if_pos hlt]
        apply ih
        · simp only [List.length_append, List.length_singleton]; omega
        · simp only [List.length_append, List.length_singleton]; omega
      · rw [sweepLoop, if_pos h, if_neg hlt]
    · simp only [List.filter_cons, h] at hfull
      rw [sweepLoop, if_neg h]
      exact ih _ _ _ hcap (by simpa using hfull)

/-- On a full buffer the loop of `RemoveExpiredFruits` stops at the first
expired fruit and leaves the buffer as it was. -/
theorem sweepLoop_full (now : Int) (rest : List Fruit) :
    ∀ (index : Nat) (newQueue : List Fruit) (ch : List FruitActionWithIndex),
      chanCap ≤ ch.length → (∃ fruit ∈ rest, isExpired now fruit = true) →
      sweepLoop now rest index newQueue ch = (none, ch) := by
  induction rest with
  | nil => intro index newQueue ch _ hex; simp at hex
  | cons fruit rest ih =>
    intro index newQueue ch hcap hex
    by_cases h : isExpired now fruit = true
    · rw [sweepLoop, if_pos h, if_neg (by omega)]
    · rw [sweepLoop, if_neg h]
      apply ih _ _ _ hcap
      obtain ⟨x, hx, hxe⟩ := hex
      rcases List.mem_cons.mp hx with rfl | hx
      · exact absurd hxe h
      · exact ⟨x, hx, hxe⟩

/-- A loop of `RemoveExpiredFruits` that runs to its end adds at most the fruits
it visits to `newQueue`. -/
theorem sweepLoop_length_le (now : Int) (rest : List Fruit) :
    ∀ (index : Nat) (newQueue : List Fruit) (ch : List FruitActionWithIndex)
      (q : List Fruit),
      (sweepLoop now rest index newQueue ch).1 = some q →
      q.length ≤ newQueue.length + rest.length := by
  induction rest with
  | nil =>
    intro index newQueue ch q h
    simp only [sweepLoop, Option.some.injEq] at h
    subst h
    simp
  | cons fruit rest ih =>
    intro index newQueue ch q h
    by_cases he : isExpired now fruit = true
    · by_cases hlt : ch.length < chanCap
      · rw [sweepLoop, if_pos he, if_pos hlt] at h
        have := ih _ _ _ _ h
        simp only [List.length_cons]
        omega
      · rw [sweepLoop, if_pos he, if_neg hlt] at h
        cases h
    · rw [sweepLoop, if_neg he] at h
      have := ih _ _ _ _ h
      rw [List.length_append, List.length_singleton] at this
      rw [List.length_cons]
      omega

/-! ## Lemmas on `dropFruits` -/

/-- The effect of `n` iterations of the loop of `dropFruits`. -/
theorem dropLoop_spec (w : World) (n : Nat) :
    ∀ s : State, ∃ new : List Fruit,
      dropLoop w n s
        = { s with queue := s.queue ++ new, randPos := s.randPos + 2 * n,
                   clockPos := s.clockPos + 2 * n } ∧
      new.length = n ∧
      (∀ fruit ∈ new, fruit.Fruit ∈ fruits) ∧
      (∀ (k : Nat) (fruit : Fruit), new[k]? = some fruit →
        fruit.StartTime = w.clock (s.clockPos + 2 * k + 1)) := by
  induction n with
  | zero => intro s; exact ⟨[], by simp [dropLoop], rfl, by simp, by simp⟩
  | succ n ih =>
    intro s
    let first : Fruit :=
      { Fruit := fruits.getD (Intn w s.randPos fruits.length) "",
        StartTime := w.clock (s.clockPos + 1),
        ID := Intn w (s.randPos + 1) 1000 }
    obtain ⟨new, heq, hlen, hmem, htime⟩ := ih
      { s with queue := s.queue ++ [first], randPos := s.randPos + 2,
               clockPos := s.clockPos + 2 }
    refine ⟨first :: new, ?_, by simp [hlen], ?_, ?_⟩
    · rw [dropLoop, heq]
      simp only [List.append_assoc, List.singleton_append, State.mk.injEq, true_and]
      omega
    · intro fruit hf
      rcases List.mem_cons.mp hf with rfl | hf
      · have hlt : Intn w s.randPos fruits.length < fruits.length :=
          Nat.mod_lt _ (by decide)
        show fruits.getD (Intn w s.randPos fruits.length) "" ∈ fruits
        rw [List.getD_eq_getElem _ _ hlt]
        exact List.getElem_mem _
      · exact hmem fruit hf
    · intro k fruit hk
      cases k with
      | zero =>
        simp only [List.getElem?_cons_zero, Option.some.injEq] at hk
        subst hk
        rfl
      | succ k =>
        simp only [List.getElem?_cons_succ] at hk
        rw [htime k fruit hk]
        congr 1
        show s.clockPos + 2 + 2 * k + 1 = s.clockPos + 2 * (k + 1) + 1
        omega

/-! ## Consequences for whole operations -/

/-- The effect of `dropFruits` on a queue within the capacity. -/
theorem dropFruits_spec (w : World) (s : State)
    (h : (s.queue.length : Int) ≤ maxFruitsOnTheScreen) :
    ∃ new : List Fruit,
      dropFruits w s
        = { s with queue := s.queue ++ new, randPos := s.randPos + 2 * new.length,
                   clockPos := s.clockPos + 2 * new.length } ∧
      (new.length : Int) = maxFruitsOnTheScreen - s.queue.length ∧
      (∀ fruit ∈ new, fruit.Fruit ∈ fruits) ∧
      (∀ (k : Nat) (fruit : Fruit), new[k]? = some fruit →
        fruit.StartTime = w.clock (s.clockPos + 2 * k + 1)) := by
  unfold dropFruits
  by_cases hd : maxFruitsOnTheScreen - (s.queue.length : Int) = 0
  · refine ⟨[], ?_, ?_, by simp, by simp⟩
    · simp [hd]
    · simp [hd]
  · obtain ⟨new, heq, hlen, hmem, htime⟩ :=
      dropLoop_spec w (maxFruitsOnTheScreen - (s.queue.length : Int)).toNat s
    refine ⟨new, ?_, ?_, hmem, htime⟩
    · simp only [hd, if_false]
      rw [heq, hlen]
    · rw [hlen]
      omega

theorem dropFruits_length_le (w : World) (s : State)
    (h : (s.queue.length : Int) ≤ maxFruitsOnTheScreen) :
    ((dropFruits w s).queue.length : Int) ≤ maxFruitsOnTheScreen := by
  obtain ⟨new, heq, hlen, _, _⟩ := dropFruits_spec w s h
  rw [heq]
  simp only [List.length_append]
  push_cast
  omega

/-- The function `cutFruit` never panics and never lengthens the queue. -/
theorem cutFruit_total (s : State) (user : Player) (selectedFruit : Int) :
    ∃ s1, cutFruit s user selectedFruit = some s1 ∧ s1.queue.length ≤ s.queue.length := by
  by_cases h : 0 ≤ selectedFruit ∧ selectedFruit < s.queue.length
  · have hlt : selectedFruit.toNat < s.queue.length := by omega
    refine ⟨_, cutFruit_in_range s user selectedFruit s.queue[selectedFruit.toNat] h.1
      (List.getElem?_eq_getElem hlt), ?_⟩
    simp only [List.length_eraseIdx, hlt, if_true]
    omega
  · exact ⟨s, cutFruit_out_of_range s user selectedFruit (by omega), le_refl _⟩

/-- With room in the buffer for one value per expired fruit, the sweep returns,
with the state spelled out. -/
theorem RemoveExpiredFruits_returned (w : World) (s : State)
    (hroom : s.removeUnCutFruitsChannel.length
      + (s.queue.filter (fun fruit => isExpired (w.clock s.clockPos) fruit)).length
        ≤ chanCap) :
    RemoveExpiredFruits w s
      = .returned
        { s with
          queue := s.queue.filter (fun fruit => !isExpired (w.clock s.clockPos) fruit),
          removeUnCutFruitsChannel := s.removeUnCutFruitsChannel ++
            ((s.queue.enumFrom 0).filter (fun p => isExpired (w.clock s.clockPos) p.2)).map
              (fun p => { index := (p.1 : Int), Fruit := p.2.Fruit }),
          clockPos := s.clockPos + 1 } := by
  unfold RemoveExpiredFruits
  simp only [sweepLoop_eq _ _ _ _ _ hroom, List.nil_append]

/-- On a full buffer a sweep that meets an expired fruit blocks, with the queue
and the buffer as they were. -/
theorem RemoveExpiredFruits_full (w : World) (s : State)
    (hcap : chanCap ≤ s.removeUnCutFruitsChannel.length)
    (hex : ∃ fruit ∈ s.queue, isExpired (w.clock s.clockPos) fruit = true) :
    RemoveExpiredFruits w s = .blocked { s with clockPos := s.clockPos + 1 } := by
  unfold RemoveExpiredFruits
  simp only [sweepLoop_full _ _ _ _ _ hcap hex]

/-- Returned or blocked, a sweep never lengthens the queue. -/
theorem RemoveExpiredFruits_length_le (w : World) (s : State) :
    (RemoveExpiredFruits w s).state.queue.length ≤ s.queue.length := by
  have h := sweepLoop_length_le (w.clock s.clockPos) s.queue 0 [] s.removeUnCutFruitsChannel
  unfold RemoveExpiredFruits
  rcases hl : sweepLoop (w.clock s.clockPos) s.queue 0 [] s.removeUnCutFruitsChannel
    with ⟨q | q, ch⟩
  · simp only [hl, Outcome.state]
    exact le_refl _
  · have := h q (by rw [hl])
    simp only [hl, Outcome.state]
    simpa using this

/-- Within the capacity invariant a sweep sends at most `maxFruitsOnTheScreen`
values: a buffer with at most five pending values has room, and the sweep
returns. -/
theorem RemoveExpiredFruits_returns_of_room (w : World) (s : State)
    (h : s.removeUnCutFruitsChannel.length + s.queue.length ≤ chanCap) :
    ∃ s1, RemoveExpiredFruits w s = .returned s1 := by
  have hle := List.length_filter_le (fun fruit => isExpired (w.clock s.clockPos) fruit)
    s.queue
  exact ⟨_, RemoveExpiredFruits_returned w s (by omega)⟩

/-! ## Lemmas on the cutting reaction -/

/-- A `playerId` within the number of pairs makes the selection loop stop on one
of them. -/
theorem pickLoop_mem (order : List (String × Player)) :
    ∀ (playerId : Int) (user : Player), 0 ≤ playerId → playerId < order.length →
      ∃ p ∈ order, pickLoop order playerId user = p.2 := by
  induction order with
  | nil => intro playerId user h0 h1; simp at h1; omega
  | cons p rest ih =>
    intro playerId user h0 h1
    obtain ⟨k, v⟩ := p
    by_cases hz : playerId = 0
    · exact ⟨(k, v), by simp, by simp [pickLoop, hz]⟩
    · have hlen : playerId - 1 < rest.length := by
        simp only [List.length_cons] at h1
        push_cast at h1
        omega
      obtain ⟨q, hq, hpick⟩ := ih (playerId - 1) user (by omega) hlen
      exact ⟨q, List.mem_cons_of_mem _ hq, by simp [pickLoop, hz, hpick]⟩

/-- With two or more registered players the cutting reaction does select a
stored record, whatever the draw and the iteration order. -/
theorem onCuttingTick_selects_member (w : World) (s : State)
    (order : List (String × Player)) (hperm : order.Perm s.users)
    (hlen : 1 < s.users.length) (hq : 0 < s.queue.length) :
    ∃ user i, (onCuttingTick w s order).2 = some (user, i) ∧
      ∃ key, (key, user) ∈ s.users := by
  have hol : order.length = s.users.length := hperm.length_eq
  have hlt : Intn w s.randPos s.users.length < s.users.length :=
    Nat.mod_lt _ (by omega)
  obtain ⟨p, hp, hpick⟩ := pickLoop_mem order (Intn w s.randPos s.users.length : Int)
    Player.zero (by omega) (by rw [hol]; exact_mod_cast hlt)
  have h0 : s.users.length > 0 := by omega
  refine ⟨p.2, (Intn w (s.randPos + 1) s.queue.length : Int), ?_, p.1, hperm.subset hp⟩
  simp [onCuttingTick, h0, hlen, hq, hpick]

/-! ## The claims -/

/-- C1. Capacity invariant: from any state whose queue holds at most
`maxFruitsOnTheScreen` fruits (the empty queue among them), every finite
sequence of `dropFruits`, `cutFruit` (any player, any index) and
`RemoveExpiredFruits` (any clock), with receives of the coordinator in between
or not, never panics, and the state it ends in has a queue of at most
`maxFruitsOnTheScreen` fruits; that state is the one after the last operation,
or the one in which a sweep waits for room in its channel. -/
theorem capacity_invariant (w : World) (ops : List QueueOp) :
    ∀ s : State, (s.queue.length : Int) ≤ maxFruitsOnTheScreen →
      ∃ s1, runQueue w s ops = some s1 ∧ (s1.queue.length : Int) ≤ maxFruitsOnTheScreen := by
  induction ops with
  | nil => intro s h; exact ⟨s, rfl, h⟩
  | cons op ops ih =>
    intro s h
    cases op with
    | drop =>
      obtain ⟨s2, h2, hle⟩ := ih (dropFruits w s) (dropFruits_length_le w s h)
      exact ⟨s2, by simp [runQueue, stepQueue, h2], hle⟩
    | cut user selectedFruit =>
      obtain ⟨s1, h1, hlen⟩ := cutFruit_total s user selectedFruit
      obtain ⟨s2, h2, hle⟩ := ih s1 (by omega)
      exact ⟨s2, by simp [runQueue, stepQueue, h1, h2], hle⟩
    | sweep =>
      have hlen := RemoveExpiredFruits_length_le w s
      rcases ho : RemoveExpiredFruits w s with s1 | s1
      · rw [ho] at hlen
        simp only [Outcome.state] at hlen
        obtain ⟨s2, h2, hle⟩ := ih s1 (by omega)
        exact ⟨s2, by simp [runQueue, stepQueue, ho, h2], hle⟩
      · rw [ho] at hlen
        simp only [Outcome.state] at hlen
        exact ⟨s1, by simp [runQueue, stepQueue, ho], by omega⟩
    | receive =>
      have hq : (onRemoveUnCut s).queue = s.queue := by
        unfold onRemoveUnCut
        split <;> rfl
      obtain ⟨s2, h2, hle⟩ := ih (onRemoveUnCut s) (by rw [hq]; exact h)
      exact ⟨s2, by simp [runQueue, stepQueue, h2], hle⟩

/-- Witness of C1: spawn, consume, sweep, consume with a stale index and spawn
again, from the empty queue. -/
theorem capacity_invariant_witness :
    (State.init.queue.length : Int) ≤ maxFruitsOnTheScreen ∧
    ∃ s1, runQueue exWorld State.init
        [.drop, .cut marsPlayer 2, .sweep, .cut earthPlayer 9, .drop] = some s1 ∧
      (s1.queue.length : Int) ≤ maxFruitsOnTheScreen :=
  ⟨by decide, capacity_invariant exWorld _ State.init (by decide)⟩

/-- C2, as stated, fails: `soloState` registers `Mars_3` with `TotalCount` 0 and
index 0 is in range, yet after `cutFruit` the entry of `Mars_3` still has
`TotalCount` 0, not 1. -/
theorem cutFruit_TotalCount_counterexample :
    mapLookup soloState.users marsPlayer.Name = some marsPlayer ∧
    soloState.queue[(0 : Int).toNat]? = some { Fruit := "🍎", StartTime := 0, ID := 7 } ∧
    ∃ s1 p1, cutFruit soloState marsPlayer 0 = some s1 ∧
      mapLookup s1.users marsPlayer.Name = some p1 ∧
      p1.TotalCount = 0 ∧ p1.TotalCount ≠ marsPlayer.TotalCount + 1 := by
  refine ⟨by decide, by decide, ?_⟩
  refine ⟨{ soloState with
      queue := exQueue.eraseIdx 0,
      users := [("Mars_3", { marsPlayer with CuttedFruits := ["🍎"] })] },
    { marsPlayer with CuttedFruits := ["🍎"] }, by decide, by decide, by decide, by decide⟩

/-- C2, amended. For every state, every index `i` in range holding `fruit` and
every player whose name is a key of `users` with record `p`, `cutFruit` returns
and the entry of that name is `p` with the label of `fruit` appended to
`CuttedFruits`: the sequence grows by exactly one label, `Name` and
`TotalCount` are as before, and the entries of all other names are
untouched. -/
theorem cutFruit_accounting (s : State) (user : Player) (i : Int) (p : Player)
    (fruit : Fruit) (h0 : 0 ≤ i) (hget : s.queue[i.toNat]? = some fruit)
    (hp : mapLookup s.users user.Name = some p) :
    ∃ s1, cutFruit s user i = some s1 ∧
      mapLookup s1.users user.Name
        = some { p with CuttedFruits := p.CuttedFruits ++ [fruit.Fruit] } ∧
      (∀ p1, mapLookup s1.users user.Name = some p1 →
        p1.CuttedFruits.length = p.CuttedFruits.length + 1 ∧
        p1.TotalCount = p.TotalCount ∧ p1.Name = p.Name) ∧
      (∀ other, other ≠ user.Name → mapLookup s1.users other = mapLookup s.users other) := by
  have hidx : mapIndex s.users user.Name = p := by simp [mapIndex, hp]
  refine ⟨_, cutFruit_in_range s user i fruit h0 hget, ?_, ?_, ?_⟩
  · simp only [mapLookup_mapAssign_self, hidx]
  · intro p1 h1
    simp only [mapLookup_mapAssign_self, hidx, Option.some.injEq] at h1
    subst h1
    simp
  · intro other hne
    exact mapLookup_mapAssign_other _ _ _ _ hne

/-- Witness of C2 amended, at `duoState`, player `Earth_1` and index 1. -/
theorem cutFruit_accounting_witness :
    ((0 : Int) ≤ 1 ∧
      duoState.queue[(1 : Int).toNat]? = some { Fruit := "🍊", StartTime := 1000000000, ID := 8 } ∧
      mapLookup duoState.users earthPlayer.Name = some earthPlayer) ∧
    ∃ s1, cutFruit duoState earthPlayer 1 = some s1 ∧
      mapLookup s1.users earthPlayer.Name
        = some { earthPlayer with CuttedFruits := earthPlayer.CuttedFruits ++ ["🍊"] } ∧
      (∀ p1, mapLookup s1.users earthPlayer.Name = some p1 →
        p1.CuttedFruits.length = earthPlayer.CuttedFruits.length + 1 ∧
        p1.TotalCount = earthPlayer.TotalCount ∧ p1.Name = earthPlayer.Name) ∧
      (∀ other, other ≠ earthPlayer.Name →
        mapLookup s1.users other = mapLookup duoState.users other) :=
  ⟨⟨by decide, by decide, by decide⟩,
    cutFruit_accounting duoState earthPlayer 1 earthPlayer
      { Fruit := "🍊", StartTime := 1000000000, ID := 8 } (by decide) (by decide) (by decide)⟩

/-- C3, the code at the failing input. `Mars_3` is selected in `duoState` and
leaves before the task runs: its name is no longer a key of `users`. The call
`cutFruit(marsPlayer, 0)` then returns with a new entry under the key `Mars_3`
whose record is the zero `Player` with the label of the cut fruit, so the
registry is not left unchanged. -/
theorem cutFruit_vanished_player_creates_entry :
    mapLookup (userLeaves duoState "Mars_3").users marsPlayer.Name = none ∧
    ∃ s1, cutFruit (userLeaves duoState "Mars_3") marsPlayer 0 = some s1 ∧
      mapLookup s1.users marsPlayer.Name
        = some { Name := "", TotalCount := 0, CuttedFruits := ["🍎"] } ∧
      s1.users ≠ (userLeaves duoState "Mars_3").users := by
  refine ⟨by decide, ?_⟩
  refine ⟨{ userLeaves duoState "Mars_3" with
      queue := exQueue.eraseIdx 0,
      users := [("Earth_1", earthPlayer),
        ("Mars_3", { Name := "", TotalCount := 0, CuttedFruits := ["🍎"] })] },
    by decide, by decide, by decide⟩

/-- C4, the code at the failing input. With exactly one registered player and a
non-empty queue, for every world the cutting reaction starts `cutFruit` with the
zero `Player`: the registered player is not the one selected, and the empty
name of the selected value is not a key of `users`. -/
theorem onCuttingTick_single_player_selects_zero :
    soloState.users.length = 1 ∧
    ∀ w : World,
      (onCuttingTick w soloState soloState.users).2.map Prod.fst = some Player.zero ∧
      mapLookup soloState.users Player.zero.Name = none ∧
      Player.zero ∉ soloState.users.map Prod.snd := by
  refine ⟨by decide, fun w => ⟨?_, by decide, by decide⟩⟩
  simp [onCuttingTick, pickLoop, soloState, State.init, exQueue]

/-- C5, as stated, fails: `fullState` has three fruits, the first of them six
seconds old at the sweep, and ten values pending in `removeUnCutFruitsChannel`.
The sweep blocks in the send for that fruit and does not return: the fruit
older than the threshold is still in the queue and no value has been sent for
it. -/
theorem RemoveExpiredFruits_full_channel_counterexample :
    (fullState.queue.length : Int) ≤ maxFruitsOnTheScreen ∧
    fullState.removeUnCutFruitsChannel.length = chanCap ∧
    exWorld.clock fullState.clockPos - 0 > maxFruitsOnTheScreen * Second ∧
    ∃ s1, RemoveExpiredFruits exWorld fullState = .blocked s1 ∧
      (∀ s2, RemoveExpiredFruits exWorld fullState ≠ .returned s2) ∧
      ({ Fruit := "🍎", StartTime := 0, ID := 7 } : Fruit) ∈ s1.queue ∧
      s1.queue = fullState.queue ∧
      s1.removeUnCutFruitsChannel = fullState.removeUnCutFruitsChannel := by
  have hb := RemoveExpiredFruits_full exWorld fullState (by decide)
    ⟨{ Fruit := "🍎", StartTime := 0, ID := 7 }, by decide,
      (isExpired_iff _ _).mpr (by decide)⟩
  refine ⟨by decide, by decide, by decide, _, hb, ?_, by decide, rfl, rfl⟩
  intro s2 h2
  rw [hb] at h2
  cases h2

/-- C5, amended. Expiry sweep postcondition, with the threshold
`maxFruitsOnTheScreen * Second` nanoseconds and `now` the clock reading of the
sweep, for every state in which the values pending in
`removeUnCutFruitsChannel` and the fruits older than the threshold together
number at most `chanCap`. The sweep returns; the queue after it is the queue
before it filtered, in order, to the fruits with `now - StartTime` at most the
threshold; no fruit older than the threshold stays; the values sent on
`removeUnCutFruitsChannel` are appended behind the pending ones, one per
removed fruit in queue order, each with the index the fruit had before the
sweep and its label; nothing else in the state changes but the clock cursor. A
fruit spawned at `t0` is removed by a sweep at `t0 + threshold + e` and kept by
a sweep at `t0 + threshold - e`, for every `e > 0`. -/
theorem RemoveExpiredFruits_postcondition (w : World) (s : State)
    (hroom : s.removeUnCutFruitsChannel.length
      + (s.queue.filter (fun fruit =>
          decide (w.clock s.clockPos - fruit.StartTime > maxFruitsOnTheScreen * Second))).length
        ≤ chanCap) :
    ∃ s1, RemoveExpiredFruits w s = .returned s1 ∧
      s1.queue
        = s.queue.filter (fun fruit =>
            decide (w.clock s.clockPos - fruit.StartTime ≤ maxFruitsOnTheScreen * Second)) ∧
      (∀ fruit ∈ s.queue,
        w.clock s.clockPos - fruit.StartTime > maxFruitsOnTheScreen * Second →
          fruit ∉ s1.queue) ∧
      s1.removeUnCutFruitsChannel
        = s.removeUnCutFruitsChannel ++
          ((s.queue.enum.filter (fun p =>
              decide (w.clock s.clockPos - p.2.StartTime > maxFruitsOnTheScreen * Second))).map
            (fun p => ({ Fruit := p.2.Fruit, index := (p.1 : Int) } : FruitActionWithIndex))) ∧
      (∀ fruit ∈ s.queue, ∀ e : Int, e > 0 →
        (w.clock s.clockPos = fruit.StartTime + maxFruitsOnTheScreen * Second + e →
          fruit ∉ s1.queue) ∧
        (w.clock s.clockPos = fruit.StartTime + maxFruitsOnTheScreen * Second - e →
          fruit ∈ s1.queue)) ∧
      s1.users = s.users ∧
      s1.userJoinedChannel = s.userJoinedChannel ∧
      s1.userExitedChannel = s.userExitedChannel ∧
      s1.cuttingAction = s.cuttingAction := by
  have hfilter : s.queue.filter (fun fruit => isExpired (w.clock s.clockPos) fruit)
      = s.queue.filter (fun fruit =>
          decide (w.clock s.clockPos - fruit.StartTime > maxFruitsOnTheScreen * Second)) := by
    apply List.filter_congr
    intro fruit _
    rw [isExpired_eq]
  have hret := RemoveExpiredFruits_returned w s (by rw [hfilter]; exact hroom)
  have hq : s.queue.filter (fun fruit => !isExpired (w.clock s.clockPos) fruit)
      = s.queue.filter (fun fruit =>
          decide (w.clock s.clockPos - fruit.StartTime ≤ maxFruitsOnTheScreen * Second)) := by
    apply List.filter_congr
    intro fruit _
    rw [isExpired_eq]
    by_cases hc : w.clock s.clockPos - fruit.StartTime ≤ maxFruitsOnTheScreen * Second
    · have hn : ¬ w.clock s.clockPos - fruit.StartTime > maxFruitsOnTheScreen * Second := by
        omega
      rw [decide_eq_true hc, decide_eq_false hn]
      rfl
    · have hn : w.clock s.clockPos - fruit.StartTime > maxFruitsOnTheScreen * Second := by
        omega
      rw [decide_eq_false hc, decide_eq_true hn]
      rfl
  refine ⟨_, hret, hq, ?_, ?_, ?_, rfl, rfl, rfl, rfl⟩
  · intro fruit _ hgt hmem
    simp only [hq, List.mem_filter] at hmem
    have := of_decide_eq_true hmem.2
    omega
  · simp only [List.enum]
    congr 2
    apply List.filter_congr
    intro p _
    rw [isExpired_eq]
  · intro fruit hin e he
    constructor
    · intro hnow hmem
      simp only [hq, List.mem_filter] at hmem
      have := of_decide_eq_true hmem.2
      omega
    · intro hnow
      simp only [hq, List.mem_filter]
      exact ⟨hin, decide_eq_true (by omega)⟩

/-- Witness of C5 amended, at `sweepState` with an empty channel: the sweep at
6 s returns, removes the fruit spawned at 0 s, keeps the fruits spawned at 1 s
and 2 s, and sends one event with index 0 and the label of the removed
fruit. -/
theorem RemoveExpiredFruits_postcondition_witness :
    sweepState.removeUnCutFruitsChannel.length
      + (sweepState.queue.filter (fun fruit =>
          decide (exWorld.clock sweepState.clockPos - fruit.StartTime
            > maxFruitsOnTheScreen * Second))).length ≤ chanCap ∧
    ∃ s1, RemoveExpiredFruits exWorld sweepState = .returned s1 ∧
      s1.queue
        = [{ Fruit := "🍊", StartTime := 1000000000, ID := 8 },
           { Fruit := "🍌", StartTime := 2000000000, ID := 9 }] ∧
      s1.removeUnCutFruitsChannel = [{ Fruit := "🍎", index := 0 }] := by
  obtain ⟨s1, hret, hq, _, hch, _⟩ :=
    RemoveExpiredFruits_postcondition exWorld sweepState (by decide)
  exact ⟨by decide, s1, hret, hq.trans (by decide), hch.trans (by decide)⟩

/-- C6, the code at the failing interleaving. Two runs of `addUser` draw the
identity `Mars_3` before the coordinator takes anything from
`userJoinedChannel`: both find the key absent and both send, so two events are
in the channel; after the coordinator has handled both, `users` has the one
entry `Mars_3` and the channel is empty. When the coordinator handles the first
event before the second `addUser` runs, only one event is sent. -/
theorem addUser_twice_sends_two_events :
    (runJoin exWorld State.init [.add, .add]).userJoinedChannel = [marsPlayer, marsPlayer] ∧
    (runJoin exWorld State.init [.add, .add, .receive, .receive]).users
      = [("Mars_3", marsPlayer)] ∧
    (runJoin exWorld State.init [.add, .add, .receive, .receive]).userJoinedChannel = [] ∧
    (runJoin exWorld State.init [.add, .receive]).userJoinedChannel = [] ∧
    (runJoin exWorld State.init [.add, .receive, .add]).userJoinedChannel = [] ∧
    (runJoin exWorld State.init [.add, .receive, .add]).users = [("Mars_3", marsPlayer)] := by
  refine ⟨by decide, by decide, by decide, by decide, by decide, by decide⟩

/-- C7. Stale index: for every state, player and index `i` with `i < 0` or
`i >= len(queue)`, `cutFruit` returns without panic, and the state it returns
has the same queue (same fruits, same order), the same `users` and the same
contents in all four channels. -/
theorem cutFruit_stale_index_noop (s : State) (user : Player) (i : Int)
    (h : i < 0 ∨ (s.queue.length : Int) ≤ i) :
    ∃ s1, cutFruit s user i = some s1 ∧ s1.queue = s.queue ∧ s1.users = s.users ∧
      s1.userJoinedChannel = s.userJoinedChannel ∧
      s1.userExitedChannel = s.userExitedChannel ∧
      s1.cuttingAction = s.cuttingAction ∧
      s1.removeUnCutFruitsChannel = s.removeUnCutFruitsChannel :=
  ⟨s, cutFruit_out_of_range s user i h, rfl, rfl, rfl, rfl, rfl, rfl⟩

/-- Witness of C7, at `duoState` with the index 3 equal to the queue length. -/
theorem cutFruit_stale_index_noop_witness :
    ((3 : Int) < 0 ∨ (duoState.queue.length : Int) ≤ 3) ∧
    ∃ s1, cutFruit duoState marsPlayer 3 = some s1 ∧ s1.queue = duoState.queue ∧
      s1.users = duoState.users ∧
      s1.userJoinedChannel = duoState.userJoinedChannel ∧
      s1.userExitedChannel = duoState.userExitedChannel ∧
      s1.cuttingAction = duoState.cuttingAction ∧
      s1.removeUnCutFruitsChannel = duoState.removeUnCutFruitsChannel :=
  ⟨by decide, cutFruit_stale_index_noop duoState marsPlayer 3 (by decide)⟩

/-- C8, as stated, fails: on the three fruits of `duoState`, two successive
calls of `cutFruit` with index 0 both find a fruit at position 0 and leave one
fruit, two fewer than at the start. -/
theorem cutFruit_twice_same_index_counterexample :
    duoState.queue.length = 3 ∧
    ∃ s1 s2, cutFruit duoState marsPlayer 0 = some s1 ∧
      cutFruit s1 earthPlayer 0 = some s2 ∧
      s2.queue.length = 1 ∧ ¬ (duoState.queue.length - 1 ≤ s2.queue.length) := by
  refine ⟨by decide, ?_⟩
  refine ⟨{ duoState with
      queue := exQueue.eraseIdx 0,
      users := [("Mars_3", { marsPlayer with CuttedFruits := ["🍎"] }),
        ("Earth_1", earthPlayer)] },
    { duoState with
      queue := (exQueue.eraseIdx 0).eraseIdx 0,
      users := [("Mars_3", { marsPlayer with CuttedFruits := ["🍎"] }),
        ("Earth_1", { earthPlayer with CuttedFruits := ["🍌", "🍊"] })] },
    by decide, by decide, by decide, by decide⟩

/-- C8, amended. For every state and every index `i` that is stale or is the
last position of the queue (`i < 0` or `i + 1 >= len(queue)`), two successive
calls of `cutFruit` with the same `i`, for any two players, both return and
remove at most one fruit in total. -/
theorem cutFruit_twice_last_or_stale (s : State) (user1 user2 : Player) (i : Int)
    (h : i < 0 ∨ (s.queue.length : Int) ≤ i + 1) :
    ∃ s1 s2, cutFruit s user1 i = some s1 ∧ cutFruit s1 user2 i = some s2 ∧
      s.queue.length - 1 ≤ s2.queue.length := by
  by_cases hin : 0 ≤ i ∧ i < s.queue.length
  · have hlt : i.toNat < s.queue.length := by omega
    have h1 := cutFruit_in_range s user1 i s.queue[i.toNat] hin.1
      (List.getElem?_eq_getElem hlt)
    refine ⟨_, _, h1, cutFruit_out_of_range _ user2 i ?_, ?_⟩
    · right
      simp only [List.length_eraseIdx, hlt, if_true]
      omega
    · simp only [List.length_eraseIdx, hlt, if_true]
      omega
  · have hout : i < 0 ∨ (s.queue.length : Int) ≤ i := by omega
    exact ⟨s, s, cutFruit_out_of_range s user1 i hout,
      cutFruit_out_of_range s user2 i hout, by omega⟩

/-- Witness of C8 amended, at `duoState` with the last index 2. -/
theorem cutFruit_twice_last_or_stale_witness :
    ((2 : Int) < 0 ∨ (duoState.queue.length : Int) ≤ 2 + 1) ∧
    ∃ s1 s2, cutFruit duoState marsPlayer 2 = some s1 ∧
      cutFruit s1 earthPlayer 2 = some s2 ∧
      duoState.queue.length - 1 ≤ s2.queue.length :=
  ⟨by decide, cutFruit_twice_last_or_stale duoState marsPlayer earthPlayer 2 (by decide)⟩

/-- C9. Spawn fills exactly the free capacity: for every state whose queue holds
at most `maxFruitsOnTheScreen` fruits, the queue after `dropFruits` is the old
queue followed by `maxFruitsOnTheScreen - len(queue)` new fruits, so its length
is `maxFruitsOnTheScreen`; five fruits are appended to an empty queue and none
to a full one; every new label is a member of `fruits`; and the `k`-th new
fruit carries the clock reading taken for `StartTime` in the `k`-th iteration,
the second of the two readings of that iteration. -/
theorem dropFruits_fills_free_capacity (w : World) (s : State)
    (h : (s.queue.length : Int) ≤ maxFruitsOnTheScreen) :
    ∃ new : List Fruit,
      (dropFruits w s).queue = s.queue ++ new ∧
      ((dropFruits w s).queue.length : Int) = maxFruitsOnTheScreen ∧
      (new.length : Int) = maxFruitsOnTheScreen - s.queue.length ∧
      (s.queue = [] → new.length = 5) ∧
      ((s.queue.length : Int) = maxFruitsOnTheScreen → new = []) ∧
      (∀ fruit ∈ new, fruit.Fruit ∈ fruits) ∧
      (∀ (k : Nat) (fruit : Fruit), new[k]? = some fruit →
        fruit.StartTime = w.clock (s.clockPos + 2 * k + 1)) := by
  obtain ⟨new, heq, hlen, hmem, htime⟩ := dropFruits_spec w s h
  refine ⟨new, by rw [heq], ?_, hlen, ?_, ?_, hmem, htime⟩
  · rw [heq]
    simp only [List.length_append]
    push_cast
    omega
  · intro he
    rw [he] at hlen
    simp only [maxFruitsOnTheScreen, List.length_nil] at hlen
    omega
  · intro he
    apply List.eq_nil_of_length_eq_zero
    omega

/-- Witness of C9, from the empty queue of the initial state. -/
theorem dropFruits_fills_free_capacity_witness :
    (State.init.queue.length : Int) ≤ maxFruitsOnTheScreen ∧
    ∃ new : List Fruit,
      (dropFruits exWorld State.init).queue = State.init.queue ++ new ∧
      ((dropFruits exWorld State.init).queue.length : Int) = maxFruitsOnTheScreen ∧
      (new.length : Int) = maxFruitsOnTheScreen - State.init.queue.length ∧
      (State.init.queue = [] → new.length = 5) ∧
      ((State.init.queue.length : Int) = maxFruitsOnTheScreen → new = []) ∧
      (∀ fruit ∈ new, fruit.Fruit ∈ fruits) ∧
      (∀ (k : Nat) (fruit : Fruit), new[k]? = some fruit →
        fruit.StartTime = exWorld.clock (State.init.clockPos + 2 * k + 1)) :=
  ⟨by decide, dropFruits_fills_free_capacity exWorld State.init (by decide)⟩

/-- C10. In-range consumption: for every state, player and index `i` with
`0 <= i < len(queue)`, `cutFruit` returns and the queue it leaves is the old
queue with the element at position `i` deleted: the fruits before `i` followed
by the fruits after `i`, in their old order, one fruit fewer. -/
theorem cutFruit_removes_selected (s : State) (user : Player) (i : Int)
    (h0 : 0 ≤ i) (h1 : i < s.queue.length) :
    ∃ s1, cutFruit s user i = some s1 ∧
      s1.queue = s.queue.eraseIdx i.toNat ∧
      s1.queue = s.queue.take i.toNat ++ s.queue.drop (i.toNat + 1) ∧
      s1.queue.length + 1 = s.queue.length := by
  have hlt : i.toNat < s.queue.length := by omega
  refine ⟨_, cutFruit_in_range s user i s.queue[i.toNat] h0
    (List.getElem?_eq_getElem hlt), rfl, ?_, ?_⟩
  · exact List.eraseIdx_eq_take_drop_succ _ _
  · simp only [List.length_eraseIdx, hlt, if_true]
    omega

/-- Witness of C10, at `duoState` with index 1. -/
theorem cutFruit_removes_selected_witness :
    ((0 : Int) ≤ 1 ∧ (1 : Int) < duoState.queue.length) ∧
    ∃ s1, cutFruit duoState marsPlayer 1 = some s1 ∧
      s1.queue = duoState.queue.eraseIdx (1 : Int).toNat ∧
      s1.queue = duoState.queue.take (1 : Int).toNat ++ duoState.queue.drop ((1 : Int).toNat + 1) ∧
      s1.queue.length + 1 = duoState.queue.length :=
  ⟨by decide, cutFruit_removes_selected duoState marsPlayer 1 (by decide) (by decide)⟩

end FruitsCutting
